import Mathlib

/-!
Verification development for the distinst installation engine
(`src/src/lib.rs`) and its FFI partition-flag conversions
(`src/ffi/src/partition.rs`).

The Rust code is shallowly embedded: the fallible collaborators of
`Installer::install` (step actions, mount/tempdir operations, the backup
helpers) are abstracted as `Except`-valued fields of an environment, and
`install` itself is translated match-by-match from the source, producing the
returned result together with the trace of emitted callbacks and of the step
actions that were invoked.
-/

namespace Distinst

/-- The `Step` enum of `lib.rs` (installation step). -/
inductive Step
  | Init
  | Partition
  | Extract
  | Configure
  | Bootloader
deriving DecidableEq, BEq, Repr

/-- The total order on steps, as the order in which `install` runs them. -/
def stepOrder : List Step := [.Init, .Partition, .Extract, .Configure, .Bootloader]

/-- Callback events observable by the caller of `install`: the status
callback (`emit_status`) and the error callback (`emit_error`). -/
inductive Event (ε : Type)
  | status (s : Step) (percent : Int)
  | errorCb (s : Step) (e : ε)
deriving DecidableEq, Repr

/-- Errors produced before the step machine starts: the backup-validation
block (`ReinstallError` conversions), the hostname check and
`verify_partitions`, all returned through `?` in `install`. -/
inductive PreErr (ε : Type)
  | diskProbe (e : ε)
  | noRootPartition
  | reformattingHome
  | noFilesystem
  | accountFiles (e : ε)
  | backupNew (e : ε)
  | validateRemove (e : ε)
  | invalidHostname
  | verifyFailed (e : ε)
deriving DecidableEq, Repr

/-- The distinguishable error outcomes of `install`.  In the source they are
all `io::Error` values, but they arise from disjoint return sites: the
kill-switch check, the `apply_step!` error arm (which alone fires the error
callback), the `?` returns on tempdir/mount/unmount/close, and the backup
restore. -/
inductive IErr (ε : Type)
  | pre (p : PreErr ε)
  | interrupted
  | stepFailed (s : Step) (e : ε)
  | ioErr (e : ε)
  | restoreFailed (e : ε)
deriving DecidableEq, Repr

/-- Modelled from the spec: the `FileSystemType` enum of the external
partition-editing backend (the `disk` module is not under `src/`).  The
variant list follows the identifiers the spec names (§4.4 FAT16/FAT32 map to
"vfat") plus the other filesystems this repository mounts; there is no FAT12
identifier. -/
inductive FileSystemType
  | Btrfs
  | Exfat
  | Ext2
  | Ext3
  | Ext4
  | F2fs
  | Fat16
  | Fat32
  | Ntfs
  | Swap
  | Xfs
  | Luks
  | Lvm
deriving DecidableEq, Repr

/-- Modelled from the spec: each filesystem's own type name, the
`From<FileSystemType> for &'static str` conversion of the missing `disk`
module. -/
def FileSystemType.str : FileSystemType → String
  | .Btrfs => "btrfs"
  | .Exfat => "exfat"
  | .Ext2 => "ext2"
  | .Ext3 => "ext3"
  | .Ext4 => "ext4"
  | .F2fs => "f2fs"
  | .Fat16 => "fat16"
  | .Fat32 => "fat32"
  | .Ntfs => "ntfs"
  | .Swap => "swap"
  | .Xfs => "xfs"
  | .Luks => "luks"
  | .Lvm => "lvm"

/-- Whether the filesystem is one of the FAT identifiers. -/
def FileSystemType.isFat : FileSystemType → Bool
  | .Fat16 => true
  | .Fat32 => true
  | _ => false

/-- The filesystem type string passed to the mount call by
`Installer::mount` (`lib.rs` lines 628-631): FAT filesystems mount as
"vfat", every other filesystem mounts under its own name. -/
def mountFsStr (fs : FileSystemType) : String :=
  match fs with
  | .Fat16 => "vfat"
  | .Fat32 => "vfat"
  | fs => fs.str

/-- A partition as seen by the backup-validation block of `install`
(`lib.rs` lines 1048-1086): UUID, mount target, format intent, filesystem. -/
structure Part where
  uuid : List Char
  target : Option (List Char)
  willFormat : Bool
  filesystem : Option FileSystemType
deriving DecidableEq, Repr

/-- `Disks::get_partition_by_uuid`, over the flattened partition list. -/
def getPartitionByUuid (ps : List Part) (u : List Char) : Option Part :=
  ps.find? (fun p => p.uuid = u)

/-- `Disks::get_partition_with_target`, over the flattened partition list. -/
def getPartitionWithTarget (ps : List Part) (t : List Char) : Option Part :=
  ps.find? (fun p => p.target = some t)

/-- Environment of one `install` run: the caller-supplied configuration
bits that the control flow reads, and the outcome of every fallible
collaborator, in program order. `kill` gives the value of `KILL_SWITCH` at
the moment the given step's boundary check would read it. -/
structure InstallEnv (ε : Type) where
  oldRoot : Option (List Char)
  disks : List Part
  probeRes : Except ε (List Part)
  accountRes : Except ε Unit
  backupRes : Except ε Unit
  validateRes : Except ε Unit
  hostnameValid : Bool
  verifyRes : Except ε Unit
  kill : Step → Bool
  initRes : Except ε Unit
  partitionRes : Except ε Unit
  tempdirRes : Except ε Unit
  mountRes : Except ε Unit
  partitioningTest : Bool
  extractRes : Except ε Unit
  configureRes : Except ε Unit
  bootloaderRes : Except ε Unit
  unmountRes : Except ε Unit
  closeRes : Except ε Unit
  restoreRes : Except ε Unit

/-- The action result of each step, as read by `apply_step!`. -/
def stepRes (env : InstallEnv ε) : Step → Except ε Unit
  | .Init => env.initRes
  | .Partition => env.partitionRes
  | .Extract => env.extractRes
  | .Configure => env.configureRes
  | .Bootloader => env.bootloaderRes

/-- The backup-validation block at the top of `install` (`lib.rs`
1045-1086): when `config.old_root` is set, probe current disks, resolve the
old root by UUID and the new root by target "/", resolve home (falling back
to the old root when "/home" has no own partition), refuse if home is to be
reformatted, then require filesystems and run the account/backup/validate
helpers.  Returns whether a backup is pending. -/
def backupCheck (env : InstallEnv ε) : Except (PreErr ε) Bool :=
  match env.oldRoot with
  | none => .ok false
  | some oldRootUuid =>
    match env.probeRes with
    | .error e => .error (.diskProbe e)
    | .ok currentDisks =>
      match getPartitionByUuid currentDisks oldRootUuid with
      | none => .error .noRootPartition
      | some oldRootPart =>
        match getPartitionWithTarget env.disks "/".data with
        | none => .error .noRootPartition
        | some newRoot =>
          let home := match getPartitionWithTarget env.disks "/home".data with
            | some p => p
            | none => oldRootPart
          if home.willFormat then .error .reformattingHome
          else match newRoot.filesystem with
          | none => .error .noFilesystem
          | some _ =>
            match oldRootPart.filesystem with
            | none => .error .noFilesystem
            | some _ =>
              match home.filesystem with
              | none => .error .noFilesystem
              | some _ =>
                match env.accountRes with
                | .error e => .error (.accountFiles e)
                | .ok _ =>
                  match env.backupRes with
                  | .error e => .error (.backupNew e)
                  | .ok _ =>
                    match env.validateRes with
                    | .error e => .error (.validateRemove e)
                    | .ok _ => .ok true

deriving instance DecidableEq for Except

/-- Observable outcome of an `install` run: the returned result, the
callback events emitted at step boundaries, and which step actions were
invoked, in order. -/
structure RunOut (ε : Type) where
  result : Except (IErr ε) Unit
  events : List (Event ε)
  ran : List Step
deriving DecidableEq, Repr

/-- The step machine of `install` (`lib.rs` 1098-1207), translated
match-by-match.  The Init step is run through the two-argument form of
`apply_step!`, which performs no kill-switch check; the remaining four steps
use the three-argument form, which checks `KILL_SWITCH`, then emits
`{step, 0}` and runs the action.  Failures of the tempdir, mount, unmount
and close calls and of the backup restore return through `?` without
touching the error callback. -/
def runSteps (env : InstallEnv ε) (hasBackup : Bool) : RunOut ε :=
  let ev0 : List (Event ε) := [.status .Init 0]
  match env.initRes with
  | .error e => ⟨.error (.stepFailed .Init e), ev0 ++ [.errorCb .Init e], [.Init]⟩
  | .ok _ =>
  if env.kill .Partition then ⟨.error .interrupted, ev0, [.Init]⟩ else
  let ev1 := ev0 ++ [.status .Partition 0]
  match env.partitionRes with
  | .error e =>
      ⟨.error (.stepFailed .Partition e), ev1 ++ [.errorCb .Partition e], [.Init, .Partition]⟩
  | .ok _ =>
  match env.tempdirRes with
  | .error e => ⟨.error (.ioErr e), ev1, [.Init, .Partition]⟩
  | .ok _ =>
  match env.mountRes with
  | .error e => ⟨.error (.ioErr e), ev1, [.Init, .Partition]⟩
  | .ok _ =>
  if env.partitioningTest then ⟨.ok (), ev1, [.Init, .Partition]⟩ else
  if env.kill .Extract then ⟨.error .interrupted, ev1, [.Init, .Partition]⟩ else
  let ev2 := ev1 ++ [.status .Extract 0]
  match env.extractRes with
  | .error e =>
      ⟨.error (.stepFailed .Extract e), ev2 ++ [.errorCb .Extract e],
        [.Init, .Partition, .Extract]⟩
  | .ok _ =>
  if env.kill .Configure then
    ⟨.error .interrupted, ev2, [.Init, .Partition, .Extract]⟩ else
  let ev3 := ev2 ++ [.status .Configure 0]
  match env.configureRes with
  | .error e =>
      ⟨.error (.stepFailed .Configure e), ev3 ++ [.errorCb .Configure e],
        [.Init, .Partition, .Extract, .Configure]⟩
  | .ok _ =>
  if env.kill .Bootloader then
    ⟨.error .interrupted, ev3, [.Init, .Partition, .Extract, .Configure]⟩ else
  let ev4 := ev3 ++ [.status .Bootloader 0]
  match env.bootloaderRes with
  | .error e =>
      ⟨.error (.stepFailed .Bootloader e), ev4 ++ [.errorCb .Bootloader e], stepOrder⟩
  | .ok _ =>
  match env.unmountRes with
  | .error e => ⟨.error (.ioErr e), ev4, stepOrder⟩
  | .ok _ =>
  match env.closeRes with
  | .error e => ⟨.error (.ioErr e), ev4, stepOrder⟩
  | .ok _ =>
  match hasBackup, env.restoreRes with
  | true, .error e => ⟨.error (.restoreFailed e), ev4, stepOrder⟩
  | _, _ => ⟨.ok (), ev4, stepOrder⟩

/-- `Installer::install`: backup validation, hostname check,
`verify_partitions`, then the step machine. -/
def install (env : InstallEnv ε) : RunOut ε :=
  match backupCheck env with
  | .error p => ⟨.error (.pre p), [], []⟩
  | .ok hasBackup =>
    if env.hostnameValid = false then ⟨.error (.pre .invalidHostname), [], []⟩
    else match env.verifyRes with
    | .error e => ⟨.error (.pre (.verifyFailed e)), [], []⟩
    | .ok _ => runSteps env hasBackup

/-- Number of error-callback invocations in a run's event trace. -/
def countErrorCbs (evs : List (Event ε)) : Nat :=
  evs.countP fun e => match e with
    | .errorCb _ _ => true
    | _ => false

/-! The mount engine (`Installer::mount`, `lib.rs` 576-663).  Paths are byte
sequences, embedded as `List Char`; destinations are collected into a
`BTreeMap` keyed by `PathBuf`, whose ordering is lexicographic on the path's
normalized component list. -/

/-- Splitting a byte sequence at a separator, as Rust's byte-slice `split`:
`n` separators yield `n + 1` (possibly empty) pieces. -/
def splitChar (sep : Char) : List Char → List (List Char)
  | [] => [[]]
  | c :: cs =>
    match splitChar sep cs with
    | [] => if c = sep then [[], []] else [[c]]
    | r :: rs => if c = sep then [] :: r :: rs else (c :: r) :: rs

/-- Ensure the chroot path ends in `/` (`lib.rs` 601-609; the source indexes
the last byte, so the chroot is assumed nonempty). -/
def ensureSlash (chroot : List Char) : List Char :=
  if chroot.getLast? = some '/' then chroot else chroot ++ ['/']

/-- Cut a leading `/` from the target path (`lib.rs` 611-621). -/
def stripSlash : List Char → List Char
  | '/' :: rest => rest
  | other => other

/-- The absolute mount destination: chroot (with trailing slash) followed by
the target without its leading slash (`lib.rs` 600-626). -/
def mountDest (chroot target : List Char) : List Char :=
  ensureSlash chroot ++ stripSlash target

/-- The normalized component list of a path, as Rust's `Path::components`
iterator for absolute paths: split on `/` and drop empty pieces. -/
def comps (p : List Char) : List (List Char) :=
  (splitChar '/' p).filter (fun c => c ≠ [])

/-- Generic boolean lexicographic strict order on lists, from a strict order
on elements. -/
def lexLtB (lt : α → α → Bool) [DecidableEq α] : List α → List α → Bool
  | _, [] => false
  | [], _ :: _ => true
  | a :: as, b :: bs => lt a b || (if a = b then lexLtB lt as bs else false)

/-- Byte-wise strict order on path components. -/
def charListLt : List Char → List Char → Bool :=
  lexLtB (fun a b => decide (a < b))

/-- Strict order on component lists (the `Ord` of `PathBuf` restricted to
absolute normalized paths). -/
def compsLt : List (List Char) → List (List Char) → Bool :=
  lexLtB charListLt

/-- The key order of the destination `BTreeMap`. -/
def pathLe (a b : List Char) : Bool :=
  compsLt (comps a) (comps b) || decide (comps a = comps b)

/-- Ordered insertion for the sort below. -/
def insertLe (le : α → α → Bool) (x : α) : List α → List α
  | [] => [x]
  | y :: ys => if le x y then x :: y :: ys else y :: insertLe le x ys

/-- Insertion sort; models iterating a `BTreeMap` in key order. -/
def sortLe (le : α → α → Bool) : List α → List α
  | [] => []
  | x :: xs => insertLe le x (sortLe le xs)

/-- The order in which `Installer::mount` mounts the destinations computed
for the given targets under the given chroot: each target is mangled into
its destination, and the `BTreeMap` iterates destinations in key order. -/
def mountOrder (chroot : List Char) (targets : List (List Char)) : List (List Char) :=
  sortLe pathLe (targets.map (mountDest chroot))

/-- One destination is an ancestor of another when its component list is a
strict prefix of the other's. -/
def isAncestor (a b : List Char) : Prop :=
  ∃ c cs, comps a ++ c :: cs = comps b

/-! The package filter of the initialization stage
(`Installer::initialize::fetch_packages`, `lib.rs` 379-427). -/

/-- The removal-manifest filter: split the `check-language-support` stdout
on spaces, then keep each manifest line only if it is not among the reported
language packs. -/
def fetchPackagesFilter (manifest : List (List Char)) (langStdout : List Char) :
    List (List Char) :=
  let langPacks := splitChar ' ' langStdout
  manifest.filter (fun line => !(langPacks.contains line))

/-- The space-delimited output through which the language-support query
reports a list of installed packages (the output format consumed by
`fetch_packages`). -/
def joinSpaces : List (List Char) → List Char
  | [] => []
  | [p] => p
  | p :: ps => p ++ ' ' :: joinSpaces ps

/-! The partitioning stage (`Installer::partition`, `lib.rs` 490-526). -/

/-- Environment of the two concurrent tracks of the partitioning stage:
track A queries physical volumes, track B commits each disk serially
(collecting partitions to format), formats the collected partitions, then
reloads each disk. -/
structure PartitionEnv (ε π α : Type) where
  pvsRes : Except ε α
  commits : List (Except ε (List π))
  fmt : π → Except ε Unit
  reloads : List (Except ε Unit)

/-- The serial per-disk commit loop: stops at the first failing disk,
otherwise concatenates the partitions each disk reports as needing format. -/
def commitPhase : List (Except ε (List π)) → Except ε (List π)
  | [] => .ok []
  | r :: rs =>
    match r with
    | .error e => .error e
    | .ok ps =>
      match commitPhase rs with
      | .error e => .error e
      | .ok rest => .ok (ps ++ rest)

/-- Modelled from the spec: `FormatPartitions::format` (the `disk` module is
not under `src/`): the batch format call reports per-item success or
failure, and the stage fails when any item fails. -/
def formatPhase (f : π → Except ε Unit) : List π → Except ε Unit
  | [] => .ok ()
  | p :: ps =>
    match f p with
    | .error e => .error e
    | .ok _ => formatPhase f ps

/-- The serial reload loop after formatting. -/
def reloadPhase : List (Except ε Unit) → Except ε Unit
  | [] => .ok ()
  | r :: rs =>
    match r with
    | .error e => .error e
    | .ok _ => reloadPhase rs

/-- Track B of the partitioning stage: commit every disk, format the
collected partitions, reload. -/
def trackB (env : PartitionEnv ε π α) : Except ε Unit :=
  match commitPhase env.commits with
  | .error e => .error e
  | .ok ps =>
    match formatPhase env.fmt ps with
    | .error e => .error e
    | .ok _ => reloadPhase env.reloads

/-- `commit_result.and(pvs_result)` (`lib.rs` 526): the commit/format
track's error wins; otherwise the query track's result is returned. -/
def combineTracks (pvsRes : Except ε α) (commitRes : Except ε Unit) : Except ε α :=
  match commitRes with
  | .error e => .error e
  | .ok _ => pvsRes

/-- The combined result of the partitioning stage's fork-join. -/
def partitionStage (env : PartitionEnv ε π α) : Except ε α :=
  combineTracks env.pvsRes (trackB env)

/-- Whether an `Except` is a success. -/
def isOkE : Except ε α → Bool
  | .ok _ => true
  | .error _ => false

/-! The recovery-configuration update (`update_recovery_config`, `lib.rs`
1224-1270) over the key=value document owned by `EnvFile`.  The `envfile`
module is not under `src/`; the document operations are modelled from the
spec: an order-preserving key=value document, mutated in memory and
persisted explicitly. -/

/-- Modelled from the spec: an `EnvFile` document, an ordered list of
key=value pairs. -/
abbrev EnvDoc := List (List Char × List Char)

/-- Modelled from the spec: `EnvFile::update` replaces the value of an
existing key in place, appending the pair when the key is new (unspecified
key order is preserved). -/
def envUpdate (doc : EnvDoc) (k v : List Char) : EnvDoc :=
  match doc with
  | [] => [(k, v)]
  | (k', v') :: rest => if k' = k then (k, v) :: rest else (k', v') :: envUpdate rest k v

/-- Modelled from the spec: `EnvFile::get`. -/
def envGet (doc : EnvDoc) (k : List Char) : Option (List Char) :=
  match doc with
  | [] => none
  | (k', v') :: rest => if k' = k then some v' else envGet rest k

/-- Modelled from the spec: `EnvFile::write` persists the document as
`KEY=VALUE` lines. -/
def serializeDoc : EnvDoc → List Char
  | [] => []
  | (k, v) :: rest => k ++ '=' :: v ++ '\n' :: serializeDoc rest

/-- Parse one `KEY=VALUE` line. -/
def parseLine (l : List Char) : List Char × List Char :=
  (l.takeWhile (fun c => c ≠ '='), (l.dropWhile (fun c => c ≠ '=')).drop 1)

/-- Modelled from the spec: `EnvFile::new` parses the persisted document. -/
def parseDoc (content : List Char) : EnvDoc :=
  ((splitChar '\n' content).filter (fun l => l ≠ [])).map parseLine

/-- A well-formed document: keys are nonempty and contain neither `=` nor a
newline, values contain no newline.  Exactly what the recovery
configuration's keys (`LUKS_UUID`, `OEM_MODE`, `ROOT_UUID`) satisfy. -/
def wfDoc (doc : EnvDoc) : Prop :=
  ∀ p ∈ doc, p.1 ≠ [] ∧ '=' ∉ p.1 ∧ '\n' ∉ p.1 ∧ '\n' ∉ p.2

/-- The LUKS value recorded by `update_recovery_config` (`lib.rs`
1244-1248): empty when there is no LUKS UUID or it equals the root's. -/
def luksValue (rootUuid : List Char) : Option (List Char) → List Char
  | some u => if rootUuid = u then [] else u
  | none => []

/-- The document transformation of `update_recovery_config` (`lib.rs`
1242-1266): update `LUKS_UUID`, update `OEM_MODE` to "0", read the
previously recorded `ROOT_UUID` (failing if absent; its value drives the
external boot-artifact removal), then record the new `ROOT_UUID`. -/
def updateRecoveryDoc (rootUuid : List Char) (luks : Option (List Char))
    (doc : EnvDoc) : Except Unit EnvDoc :=
  let d1 := envUpdate doc "LUKS_UUID".data (luksValue rootUuid luks)
  let d2 := envUpdate d1 "OEM_MODE".data "0".data
  match envGet d2 "ROOT_UUID".data with
  | none => .error ()
  | some _ => .ok (envUpdate d2 "ROOT_UUID".data rootUuid)

/-- One application of the recovery-config update to the persisted file
content: parse, transform, persist. -/
def updateRecoveryFile (rootUuid : List Char) (luks : Option (List Char))
    (content : List Char) : Except Unit (List Char) :=
  match updateRecoveryDoc rootUuid luks (parseDoc content) with
  | .error e => .error e
  | .ok d => .ok (serializeDoc d)

/-! FFI partition-flag enums (`src/ffi/src/partition.rs`). -/

/-- The libparted-derived `PartitionFlag` enum, with the variants matched by
the FFI conversions. -/
inductive PartitionFlag
  | PED_PARTITION_BOOT
  | PED_PARTITION_ROOT
  | PED_PARTITION_SWAP
  | PED_PARTITION_HIDDEN
  | PED_PARTITION_RAID
  | PED_PARTITION_LVM
  | PED_PARTITION_LBA
  | PED_PARTITION_HPSERVICE
  | PED_PARTITION_PALO
  | PED_PARTITION_PREP
  | PED_PARTITION_MSFT_RESERVED
  | PED_PARTITION_BIOS_GRUB
  | PED_PARTITION_APPLE_TV_RECOVERY
  | PED_PARTITION_DIAG
  | PED_PARTITION_LEGACY_BOOT
  | PED_PARTITION_MSFT_DATA
  | PED_PARTITION_IRST
  | PED_PARTITION_ESP
deriving DecidableEq, Repr

/-- The C-compatible `DISTINST_PARTITION_FLAG` enum. -/
inductive DISTINST_PARTITION_FLAG
  | BOOT
  | ROOT
  | SWAP
  | HIDDEN
  | RAID
  | LVM
  | LBA
  | HPSERVICE
  | PALO
  | PREP
  | MSFT_RESERVED
  | BIOS_GRUB
  | APPLE_TV_RECOVERY
  | DIAG
  | LEGACY_BOOT
  | MSFT_DATA
  | IRST
  | ESP
deriving DecidableEq, Repr

/-- `impl From<PartitionFlag> for DISTINST_PARTITION_FLAG`
(`partition.rs` lines 77-102). -/
def flagToFfi : PartitionFlag → DISTINST_PARTITION_FLAG
  | .PED_PARTITION_BOOT => .BOOT
  | .PED_PARTITION_ROOT => .ROOT
  | .PED_PARTITION_SWAP => .SWAP
  | .PED_PARTITION_HIDDEN => .HIDDEN
  | .PED_PARTITION_RAID => .RAID
  | .PED_PARTITION_LVM => .LVM
  | .PED_PARTITION_LBA => .LBA
  | .PED_PARTITION_HPSERVICE => .HPSERVICE
  | .PED_PARTITION_PALO => .PALO
  | .PED_PARTITION_PREP => .PREP
  | .PED_PARTITION_MSFT_RESERVED => .MSFT_RESERVED
  | .PED_PARTITION_BIOS_GRUB => .BIOS_GRUB
  | .PED_PARTITION_APPLE_TV_RECOVERY => .APPLE_TV_RECOVERY
  | .PED_PARTITION_DIAG => .DIAG
  | .PED_PARTITION_LEGACY_BOOT => .LEGACY_BOOT
  | .PED_PARTITION_MSFT_DATA => .MSFT_DATA
  | .PED_PARTITION_IRST => .IRST
  | .PED_PARTITION_ESP => .ESP

/-- `impl From<DISTINST_PARTITION_FLAG> for PartitionFlag`
(`partition.rs` lines 104-129). -/
def flagFromFfi : DISTINST_PARTITION_FLAG → PartitionFlag
  | .BOOT => .PED_PARTITION_BOOT
  | .ROOT => .PED_PARTITION_ROOT
  | .SWAP => .PED_PARTITION_SWAP
  | .HIDDEN => .PED_PARTITION_HIDDEN
  | .RAID => .PED_PARTITION_RAID
  | .LVM => .PED_PARTITION_LVM
  | .LBA => .PED_PARTITION_LBA
  | .HPSERVICE => .PED_PARTITION_HPSERVICE
  | .PALO => .PED_PARTITION_PALO
  | .PREP => .PED_PARTITION_PREP
  | .MSFT_RESERVED => .PED_PARTITION_MSFT_RESERVED
  | .BIOS_GRUB => .PED_PARTITION_BIOS_GRUB
  | .APPLE_TV_RECOVERY => .PED_PARTITION_APPLE_TV_RECOVERY
  | .DIAG => .PED_PARTITION_DIAG
  | .LEGACY_BOOT => .PED_PARTITION_LEGACY_BOOT
  | .MSFT_DATA => .PED_PARTITION_MSFT_DATA
  | .IRST => .PED_PARTITION_IRST
  | .ESP => .PED_PARTITION_ESP

/-! Concrete run environments used to evaluate the model on closed inputs. -/

/-- A run in which every collaborator succeeds and cancellation never
fires. -/
def okEnv : InstallEnv Unit :=
  { oldRoot := none, disks := [], probeRes := .ok [], accountRes := .ok (),
    backupRes := .ok (), validateRes := .ok (), hostnameValid := true,
    verifyRes := .ok (), kill := fun _ => false, initRes := .ok (),
    partitionRes := .ok (), tempdirRes := .ok (), mountRes := .ok (),
    partitioningTest := false, extractRes := .ok (), configureRes := .ok (),
    bootloaderRes := .ok (), unmountRes := .ok (), closeRes := .ok (),
    restoreRes := .ok () }

/-- A run whose partitioning step action fails. -/
def envPartFail : InstallEnv Unit := { okEnv with partitionRes := .error () }

/-- A run with the cancellation flag set at every step boundary. -/
def envAllKill : InstallEnv Unit := { okEnv with kill := fun _ => true }

/-- A run in which `Installer::mount` fails (a non-step `?` return). -/
def envMountFail : InstallEnv Unit := { okEnv with mountRes := .error () }

/-- The new root partition of the retention scenario. -/
def partRoot : Part := ⟨"rootuuid".data, some "/".data, true, some .Ext4⟩

/-- A separate home partition flagged for reformatting. -/
def partHome : Part := ⟨"homeuuid".data, some "/home".data, true, some .Ext4⟩

/-- The probed old root partition of the retention scenario. -/
def partOld : Part := ⟨"olduuid".data, none, false, some .Ext4⟩

/-- A retention run whose resolved home partition is marked for
reformatting. -/
def envRetention : InstallEnv Unit :=
  { okEnv with
    oldRoot := some "olduuid".data
    disks := [partRoot, partHome]
    probeRes := .ok [partOld] }

/-- A partitioning-stage environment in which both tracks fail: the query
track with error `false`, the commit track with error `true`. -/
def penvBothFail : PartitionEnv Bool Unit Unit :=
  ⟨.error false, [.error true], fun _ => .ok (), []⟩

/-- A partitioning-stage environment whose commits succeed but whose batch
format fails while the query track succeeds. -/
def penvFmtFail : PartitionEnv Bool Unit Unit :=
  ⟨.ok (), [.ok [()]], fun _ => .error true, []⟩

/-- A recovery configuration document as found on the install medium. -/
def docRecovery : EnvDoc :=
  [("ROOT_UUID".data, "old".data), ("OEM_MODE".data, "1".data)]

/-! Helper lemmas. -/

theorem splitChar_of_not_mem (sep : Char) (p : List Char) (h : sep ∉ p) :
    splitChar sep p = [p] := by
  induction p with
  | nil => rfl
  | cons c cs ih =>
    have hc : c ≠ sep := fun hcs => h (hcs ▸ List.mem_cons_self c cs)
    have hcs : sep ∉ cs := fun hm => h (List.mem_cons_of_mem c hm)
    simp [splitChar, ih hcs, hc]

theorem splitChar_ne_nil (sep : Char) (p : List Char) : splitChar sep p ≠ [] := by
  cases p with
  | nil => simp [splitChar]
  | cons c cs =>
    cases hr : splitChar sep cs with
    | nil => by_cases hc : c = sep <;> simp [splitChar, hr, hc]
    | cons r rs => by_cases hc : c = sep <;> simp [splitChar, hr, hc]

theorem splitChar_append (sep : Char) (p rest : List Char) (h : sep ∉ p) :
    splitChar sep (p ++ sep :: rest) = p :: splitChar sep rest := by
  induction p with
  | nil =>
    cases hr : splitChar sep rest with
    | nil => exact absurd hr (splitChar_ne_nil sep rest)
    | cons r rs => simp [splitChar, hr]
  | cons c cs ih =>
    have hc : c ≠ sep := fun hcs => h (hcs ▸ List.mem_cons_self c cs)
    have hcs : sep ∉ cs := fun hm => h (List.mem_cons_of_mem c hm)
    simp [splitChar, ih hcs, hc]

theorem splitChar_joinSpaces (ps : List (List Char)) (h0 : ps ≠ [])
    (h : ∀ p ∈ ps, ' ' ∉ p) : splitChar ' ' (joinSpaces ps) = ps := by
  induction ps with
  | nil => exact absurd rfl h0
  | cons p ps ih =>
    cases ps with
    | nil =>
      exact splitChar_of_not_mem ' ' p (h p (List.mem_cons_self p []))
    | cons q qs =>
      have hp : ' ' ∉ p := h p (List.mem_cons_self p _)
      have hqs : ∀ r ∈ q :: qs, ' ' ∉ r := fun r hr => h r (List.mem_cons_of_mem p hr)
      rw [show joinSpaces (p :: q :: qs) = p ++ ' ' :: joinSpaces (q :: qs) from rfl]
      rw [splitChar_append ' ' p _ hp, ih (by simp) hqs]

theorem envGet_update_same (doc : EnvDoc) (k v : List Char) :
    envGet (envUpdate doc k v) k = some v := by
  induction doc with
  | nil => simp [envUpdate, envGet]
  | cons p rest ih =>
    obtain ⟨k', v'⟩ := p
    by_cases hk : k' = k
    · simp [envUpdate, envGet, hk]
    · simp [envUpdate, envGet, hk, ih]

theorem envGet_update_other (doc : EnvDoc) (k v k2 : List Char) (h : k ≠ k2) :
    envGet (envUpdate doc k v) k2 = envGet doc k2 := by
  induction doc with
  | nil => simp [envUpdate, envGet, h]
  | cons p rest ih =>
    obtain ⟨k', v'⟩ := p
    by_cases hk : k' = k
    · subst hk
      simp [envUpdate, envGet, h]
    · simp [envUpdate, envGet, hk, ih]

theorem envUpdate_of_get (doc : EnvDoc) (k v : List Char)
    (h : envGet doc k = some v) : envUpdate doc k v = doc := by
  induction doc with
  | nil => simp [envGet] at h
  | cons p rest ih =>
    obtain ⟨k', v'⟩ := p
    by_cases hk : k' = k
    · subst hk
      simp [envGet] at h
      simp [envUpdate, h]
    · simp [envGet, hk] at h
      simp [envUpdate, hk, ih h]

theorem wfDoc_update (doc : EnvDoc) (k v : List Char) (hd : wfDoc doc)
    (hk0 : k ≠ []) (hk1 : '=' ∉ k) (hk2 : '\n' ∉ k) (hv : '\n' ∉ v) :
    wfDoc (envUpdate doc k v) := by
  induction doc with
  | nil =>
    intro p hp
    simp [envUpdate] at hp
    subst hp
    exact ⟨hk0, hk1, hk2, hv⟩
  | cons q rest ih =>
    obtain ⟨k', v'⟩ := q
    have hq := hd (k', v') (List.mem_cons_self _ _)
    have hrest : wfDoc rest := fun p hp => hd p (List.mem_cons_of_mem _ hp)
    by_cases hk : k' = k
    · intro p hp
      simp [envUpdate, hk] at hp
      rcases hp with hp | hp
      · subst hp
        exact ⟨hk0, hk1, hk2, hv⟩
      · exact hd p (List.mem_cons_of_mem _ hp)
    · intro p hp
      simp [envUpdate, hk] at hp
      rcases hp with hp | hp
      · subst hp
        exact hq
      · exact ih hrest p hp

theorem takeWhile_ne_append (k v : List Char) (h : '=' ∉ k) :
    (k ++ '=' :: v).takeWhile (fun c => c ≠ '=') = k := by
  induction k with
  | nil => simp [List.takeWhile]
  | cons c cs ih =>
    have hc : c ≠ '=' := fun hcs => h (hcs ▸ List.mem_cons_self c cs)
    have hcs : '=' ∉ cs := fun hm => h (List.mem_cons_of_mem c hm)
    simp only [List.cons_append, List.takeWhile_cons]
    simp [hc]
    simpa [decide_not] using ih hcs

theorem dropWhile_ne_append (k v : List Char) (h : '=' ∉ k) :
    (k ++ '=' :: v).dropWhile (fun c => c ≠ '=') = '=' :: v := by
  induction k with
  | nil => simp [List.dropWhile]
  | cons c cs ih =>
    have hc : c ≠ '=' := fun hcs => h (hcs ▸ List.mem_cons_self c cs)
    have hcs : '=' ∉ cs := fun hm => h (List.mem_cons_of_mem c hm)
    simp only [List.cons_append, List.dropWhile_cons]
    simp [hc]
    simpa [decide_not] using ih hcs

theorem parse_serialize (doc : EnvDoc) (h : wfDoc doc) :
    parseDoc (serializeDoc doc) = doc := by
  induction doc with
  | nil => rfl
  | cons p rest ih =>
    obtain ⟨k, v⟩ := p
    obtain ⟨hk0, hk1, hk2, hv⟩ := h (k, v) (List.mem_cons_self _ _)
    have hrest : wfDoc rest := fun q hq => h q (List.mem_cons_of_mem _ hq)
    have hline : '\n' ∉ k ++ '=' :: v := by
      intro hm
      rcases List.mem_append.mp hm with hm | hm
      · exact hk2 hm
      · rcases List.mem_cons.mp hm with hm | hm
        · exact absurd hm.symm (by decide)
        · exact hv hm
    have hser : serializeDoc ((k, v) :: rest) =
        (k ++ '=' :: v) ++ '\n' :: serializeDoc rest := by
      simp [serializeDoc]
    have hne : k ++ '=' :: v ≠ [] := by simp
    have hpl : parseLine (k ++ '=' :: v) = (k, v) := by
      unfold parseLine
      rw [takeWhile_ne_append k v hk1, dropWhile_ne_append k v hk1]
      simp
    have ihr := ih hrest
    unfold parseDoc at ihr ⊢
    rw [hser, splitChar_append '\n' _ _ hline,
      List.filter_cons_of_pos (by simp [hne]), List.map_cons, hpl, ihr]

theorem lexLtB_append (lt : α → α → Bool) [DecidableEq α] (as : List α) (c : α)
    (cs : List α) : lexLtB lt as (as ++ c :: cs) = true := by
  induction as with
  | nil => rfl
  | cons a as ih => simp [lexLtB, ih]

theorem lexLtB_irrefl (lt : α → α → Bool) [DecidableEq α]
    (h : ∀ a, lt a a = false) (as : List α) : lexLtB lt as as = false := by
  induction as with
  | nil => rfl
  | cons a as ih => simp [lexLtB, h, ih]

theorem lexLtB_asymm (lt : α → α → Bool) [DecidableEq α]
    (h : ∀ a b, lt a b = true → lt b a = false) :
    ∀ as bs : List α, lexLtB lt as bs = true → lexLtB lt bs as = false := by
  intro as
  induction as with
  | nil =>
    intro bs hab
    cases bs with
    | nil => rfl
    | cons b bs => rfl
  | cons a as ih =>
    intro bs hab
    cases bs with
    | nil => exact absurd hab (by simp [lexLtB])
    | cons b bs =>
      simp only [lexLtB, Bool.or_eq_true] at hab
      by_cases heq : a = b
      · subst heq
        have haa : lt a a = false := by
          cases hcc : lt a a with
          | false => rfl
          | true => exact hcc ▸ h a a hcc
        rcases hab with hab | hab
        · exact absurd hab (by simp [haa])
        · simp only [if_pos rfl] at hab
          simp [lexLtB, haa, ih bs hab]
      · rcases hab with hab | hab
        · have hbna : b ≠ a := fun hba => heq hba.symm
          simp [lexLtB, h a b hab, hbna]
        · simp only [if_neg heq] at hab
          simp at hab

theorem lexLtB_trans (lt : α → α → Bool) [DecidableEq α]
    (h : ∀ a b c, lt a b = true → lt b c = true → lt a c = true) :
    ∀ as bs cs : List α, lexLtB lt as bs = true → lexLtB lt bs cs = true →
      lexLtB lt as cs = true := by
  intro as
  induction as with
  | nil =>
    intro bs cs h1 h2
    cases bs with
    | nil => exact h2
    | cons b bs =>
      cases cs with
      | nil => exact absurd h2 (by simp [lexLtB])
      | cons c cs => rfl
  | cons a as ih =>
    intro bs cs h1 h2
    cases bs with
    | nil => exact absurd h1 (by simp [lexLtB])
    | cons b bs =>
      cases cs with
      | nil => exact absurd h2 (by simp [lexLtB])
      | cons c cs =>
        simp only [lexLtB, Bool.or_eq_true] at h1 h2 ⊢
        by_cases hab : a = b <;> by_cases hbc : b = c
        · subst hab; subst hbc
          simp only [if_pos rfl] at h1 h2 ⊢
          rcases h1 with h1 | h1
          · exact Or.inl h1
          · rcases h2 with h2 | h2
            · exact Or.inl h2
            · exact Or.inr (ih bs cs h1 h2)
        · subst hab
          simp only [if_pos rfl, if_neg hbc] at h1 h2 ⊢
          rcases h2 with h2 | h2
          · exact Or.inl h2
          · simp at h2
        · subst hbc
          simp only [if_pos rfl, if_neg hab] at h1 h2 ⊢
          rcases h1 with h1 | h1
          · exact Or.inl h1
          · simp at h1
        · simp only [if_neg hab, if_neg hbc] at h1 h2
          rcases h1 with h1 | h1
          · rcases h2 with h2 | h2
            · exact Or.inl (h a b c h1 h2)
            · simp at h2
          · simp at h1

theorem lexLtB_trichotomy (lt : α → α → Bool) [DecidableEq α]
    (h : ∀ a b, lt a b = true ∨ a = b ∨ lt b a = true) :
    ∀ as bs : List α, lexLtB lt as bs = true ∨ as = bs ∨ lexLtB lt bs as = true := by
  intro as
  induction as with
  | nil =>
    intro bs
    cases bs with
    | nil => exact Or.inr (Or.inl rfl)
    | cons b bs => exact Or.inl rfl
  | cons a as ih =>
    intro bs
    cases bs with
    | nil => exact Or.inr (Or.inr rfl)
    | cons b bs =>
      rcases h a b with hab | hab | hab
      · exact Or.inl (by simp [lexLtB, hab])
      · subst hab
        rcases ih bs with hr | hr | hr
        · exact Or.inl (by simp [lexLtB, hr])
        · exact Or.inr (Or.inl (by rw [hr]))
        · exact Or.inr (Or.inr (by simp [lexLtB, hr]))
      · exact Or.inr (Or.inr (by simp [lexLtB, hab]))

theorem charLt_facts :
    (∀ a : Char, decide (a < a) = false) ∧
    (∀ a b : Char, decide (a < b) = true → decide (b < a) = false) ∧
    (∀ a b c : Char, decide (a < b) = true → decide (b < c) = true →
      decide (a < c) = true) ∧
    (∀ a b : Char, decide (a < b) = true ∨ a = b ∨ decide (b < a) = true) := by
  refine ⟨fun a => by simp, fun a b h => ?_, fun a b c h1 h2 => ?_, fun a b => ?_⟩
  · simp only [decide_eq_true_eq] at h
    simp [asymm h]
  · simp only [decide_eq_true_eq] at h1 h2 ⊢
    exact lt_trans h1 h2
  · rcases lt_trichotomy a b with h | h | h
    · exact Or.inl (by simp [h])
    · exact Or.inr (Or.inl h)
    · exact Or.inr (Or.inr (by simp [h]))

theorem charListLt_irrefl (as : List Char) : charListLt as as = false :=
  lexLtB_irrefl _ charLt_facts.1 as

theorem charListLt_asymm (as bs : List Char) (h : charListLt as bs = true) :
    charListLt bs as = false :=
  lexLtB_asymm _ charLt_facts.2.1 as bs h

theorem charListLt_trans (as bs cs : List Char) (h1 : charListLt as bs = true)
    (h2 : charListLt bs cs = true) : charListLt as cs = true :=
  lexLtB_trans _ charLt_facts.2.2.1 as bs cs h1 h2

theorem charListLt_trichotomy (as bs : List Char) :
    charListLt as bs = true ∨ as = bs ∨ charListLt bs as = true :=
  lexLtB_trichotomy _ charLt_facts.2.2.2 as bs

theorem compsLt_irrefl (as : List (List Char)) : compsLt as as = false :=
  lexLtB_irrefl _ charListLt_irrefl as

theorem compsLt_asymm (as bs : List (List Char)) (h : compsLt as bs = true) :
    compsLt bs as = false :=
  lexLtB_asymm _ charListLt_asymm as bs h

theorem compsLt_trans (as bs cs : List (List Char)) (h1 : compsLt as bs = true)
    (h2 : compsLt bs cs = true) : compsLt as cs = true :=
  lexLtB_trans _ charListLt_trans as bs cs h1 h2

theorem compsLt_trichotomy (as bs : List (List Char)) :
    compsLt as bs = true ∨ as = bs ∨ compsLt bs as = true :=
  lexLtB_trichotomy _ charListLt_trichotomy as bs

theorem pathLe_total (a b : List Char) : pathLe a b = true ∨ pathLe b a = true := by
  rcases compsLt_trichotomy (comps a) (comps b) with h | h | h
  · exact Or.inl (by simp [pathLe, h])
  · exact Or.inl (by simp [pathLe, h])
  · exact Or.inr (by simp [pathLe, h])

theorem pathLe_trans (a b c : List Char) (h1 : pathLe a b = true)
    (h2 : pathLe b c = true) : pathLe a c = true := by
  simp only [pathLe, Bool.or_eq_true, decide_eq_true_eq] at h1 h2 ⊢
  rcases h1 with h1 | h1
  · rcases h2 with h2 | h2
    · exact Or.inl (compsLt_trans _ _ _ h1 h2)
    · exact Or.inl (h2 ▸ h1)
  · rcases h2 with h2 | h2
    · exact Or.inl (h1 ▸ h2)
    · exact Or.inr (h1.trans h2)

theorem mem_insertLe (le : α → α → Bool) (x : α) (l : List α) (z : α) :
    z ∈ insertLe le x l ↔ z = x ∨ z ∈ l := by
  induction l with
  | nil => simp [insertLe]
  | cons y ys ih =>
    by_cases h : le x y = true
    · simp [insertLe, h]
    · simp only [insertLe, if_neg h, List.mem_cons, ih]
      tauto

theorem pairwise_insertLe (le : α → α → Bool)
    (htot : ∀ a b, le a b = true ∨ le b a = true)
    (htr : ∀ a b c, le a b = true → le b c = true → le a c = true)
    (x : α) (l : List α) (hp : l.Pairwise (fun a b => le a b = true)) :
    (insertLe le x l).Pairwise (fun a b => le a b = true) := by
  induction l with
  | nil => simp [insertLe]
  | cons y ys ih =>
    rw [List.pairwise_cons] at hp
    obtain ⟨hy, hys⟩ := hp
    by_cases h : le x y = true
    · rw [insertLe, if_pos h, List.pairwise_cons]
      refine ⟨?_, List.pairwise_cons.mpr ⟨hy, hys⟩⟩
      intro z hz
      rcases List.mem_cons.mp hz with hz | hz
      · exact hz ▸ h
      · exact htr x y z h (hy z hz)
    · rw [insertLe, if_neg h, List.pairwise_cons]
      refine ⟨?_, ih hys⟩
      intro z hz
      rcases (mem_insertLe le x ys z).mp hz with hz | hz
      · cases hz
        rcases htot x y with hxy | hyx
        · exact absurd hxy h
        · exact hyx
      · exact hy z hz

theorem pairwise_sortLe (le : α → α → Bool)
    (htot : ∀ a b, le a b = true ∨ le b a = true)
    (htr : ∀ a b c, le a b = true → le b c = true → le a c = true)
    (l : List α) : (sortLe le l).Pairwise (fun a b => le a b = true) := by
  induction l with
  | nil => simp [sortLe]
  | cons x xs ih => exact pairwise_insertLe le htot htr x (sortLe le xs) ih

theorem runSteps_cases (ε : Type) (env : InstallEnv ε) (hb : Bool) :
    ((runSteps env hb).ran.isPrefixOf stepOrder = true) ∧
    (∀ s e, (runSteps env hb).result = .error (.stepFailed s e) →
      stepRes env s = .error e ∧ (runSteps env hb).ran.getLast? = some s ∧
      (runSteps env hb).events.getLast? = some (.errorCb s e)) ∧
    ((runSteps env hb).result = .ok () →
      countErrorCbs (runSteps env hb).events = 0) ∧
    (∀ er, (runSteps env hb).result = .error er →
      match er with
      | .stepFailed s e => countErrorCbs (runSteps env hb).events = 1 ∧
          (runSteps env hb).events.getLast? = some (.errorCb s e)
      | _ => countErrorCbs (runSteps env hb).events = 0) := by
  unfold runSteps
  repeat' split
  all_goals
    refine ⟨by rfl, fun s e heq => ?_, fun hok => ?_, fun er her => ?_⟩
  all_goals
    first
    | (simp at heq
       try (obtain ⟨rfl, rfl⟩ := heq
            exact ⟨by simp [stepRes, *], rfl, rfl⟩))
    | (first | rfl | simp at hok)
    | (simp at her
       try (subst her
            first | exact ⟨rfl, rfl⟩ | rfl))

/-! Claim theorems. -/

/-- C1: `install` runs the step actions in the fixed order Init, Partition,
Extract, Configure, Bootloader — the invoked steps always form a prefix of
that order — and when a step action fails, the failing step is the last one
invoked (no later step runs) and the emitted/returned `Error` carries
exactly that step and cause, as the final callback event. -/
theorem install_step_order (ε : Type) (env : InstallEnv ε) :
    ((install env).ran.isPrefixOf stepOrder = true) ∧
    (∀ s e, (install env).result = .error (.stepFailed s e) →
      stepRes env s = .error e ∧ (install env).ran.getLast? = some s ∧
      (install env).events.getLast? = some (.errorCb s e)) := by
  unfold install
  cases hbc : backupCheck env with
  | error p =>
    refine ⟨by rfl, fun s e heq => ?_⟩
    simp at heq
  | ok hb =>
    dsimp only
    by_cases hv : env.hostnameValid = false
    · rw [if_pos hv]
      refine ⟨by rfl, fun s e heq => ?_⟩
      simp at heq
    · rw [if_neg hv]
      cases hver : env.verifyRes with
      | error e0 =>
        refine ⟨by rfl, fun s e heq => ?_⟩
        simp at heq
      | ok u =>
        exact ⟨(runSteps_cases ε env hb).1, (runSteps_cases ε env hb).2.1⟩

/-- Witness: in the run whose partitioning action fails, the failing step is
Partition, it is the last step invoked, and the error callback carried it. -/
theorem install_step_order_witness :
    stepRes envPartFail .Partition = .error () ∧
    (install envPartFail).ran.getLast? = some .Partition ∧
    (install envPartFail).events.getLast? = some (.errorCb .Partition ()) :=
  (install_step_order Unit envPartFail).2 .Partition () (by decide)

/-- Counterexample to C2 as stated: with the cancellation flag set at every
step boundary (the Init boundary included) and every collaborator
succeeding, `install` still invokes the Init step action — the first
`apply_step!` form performs no kill-switch check — and only then returns
Interrupted at the Partition boundary. -/
theorem install_kill_init_unchecked :
    envAllKill.kill .Init = true ∧ (install envAllKill).ran = [.Init] ∧
    (install envAllKill).result = .error .interrupted := by decide

/-- C2 (amended): at every step boundary after Init — Partition, Extract,
Configure, Bootloader — if the cancellation flag is set when `install`
reaches that boundary, `install` returns Interrupted without invoking that
step's action, and the trace of already-run steps and emitted events is
exactly that of the prior steps, unchanged. -/
theorem install_kill_boundaries_after_init (ε : Type) (env : InstallEnv ε)
    (hb : Bool) (hbc : backupCheck env = .ok hb)
    (hhost : env.hostnameValid = true) (hver : env.verifyRes = .ok ()) :
    (env.initRes = .ok () → env.kill .Partition = true →
      install env = ⟨.error .interrupted, [.status .Init 0], [.Init]⟩) ∧
    (env.initRes = .ok () → env.kill .Partition = false →
      env.partitionRes = .ok () → env.tempdirRes = .ok () →
      env.mountRes = .ok () → env.partitioningTest = false →
      env.kill .Extract = true →
      install env = ⟨.error .interrupted,
        [.status .Init 0, .status .Partition 0], [.Init, .Partition]⟩) ∧
    (env.initRes = .ok () → env.kill .Partition = false →
      env.partitionRes = .ok () → env.tempdirRes = .ok () →
      env.mountRes = .ok () → env.partitioningTest = false →
      env.kill .Extract = false → env.extractRes = .ok () →
      env.kill .Configure = true →
      install env = ⟨.error .interrupted,
        [.status .Init 0, .status .Partition 0, .status .Extract 0],
        [.Init, .Partition, .Extract]⟩) ∧
    (env.initRes = .ok () → env.kill .Partition = false →
      env.partitionRes = .ok () → env.tempdirRes = .ok () →
      env.mountRes = .ok () → env.partitioningTest = false →
      env.kill .Extract = false → env.extractRes = .ok () →
      env.kill .Configure = false → env.configureRes = .ok () →
      env.kill .Bootloader = true →
      install env = ⟨.error .interrupted,
        [.status .Init 0, .status .Partition 0, .status .Extract 0,
          .status .Configure 0],
        [.Init, .Partition, .Extract, .Configure]⟩) := by
  refine ⟨?_, ?_, ?_, ?_⟩ <;> intros <;>
    simp [install, runSteps, hbc, hhost, hver, *]

/-- Witness: with the flag set at the Partition boundary after a successful
Init, the run returns Interrupted having run exactly the Init step. -/
theorem install_kill_boundaries_after_init_witness :
    install envAllKill = ⟨.error .interrupted, [.status .Init 0], [.Init]⟩ :=
  (install_kill_boundaries_after_init Unit envAllKill false (by decide)
    (by decide) (by decide)).1 (by decide) (by decide)

/-- Counterexample to C3 as stated: a run that errors in `Installer::mount`
(a plain `?` return between the Partition and Extract steps) returns an
error while the error callback fires zero times. -/
theorem install_mount_error_no_callback :
    (install envMountFail).result = .error (.ioErr ()) ∧
    countErrorCbs (install envMountFail).events = 0 := by decide

/-- C3 (amended): the error callback fires exactly once, carrying the
failing step and cause as the final event, on every run that returns a step
action's error; runs that return any other error — pre-step validation,
tempdir/mount/unmount/close, interruption, backup restore — fire it zero
times, as do successful runs. -/
theorem install_error_callback_discipline (ε : Type) (env : InstallEnv ε) :
    ((install env).result = .ok () → countErrorCbs (install env).events = 0) ∧
    (∀ er, (install env).result = .error er →
      match er with
      | .stepFailed s e => countErrorCbs (install env).events = 1 ∧
          (install env).events.getLast? = some (.errorCb s e)
      | _ => countErrorCbs (install env).events = 0) := by
  unfold install
  cases hbc : backupCheck env with
  | error p =>
    refine ⟨fun hok => rfl, fun er her => ?_⟩
    simp at her
    subst her
    rfl
  | ok hb =>
    dsimp only
    by_cases hv : env.hostnameValid = false
    · rw [if_pos hv]
      refine ⟨fun hok => rfl, fun er her => ?_⟩
      simp at her
      subst her
      rfl
    · rw [if_neg hv]
      cases hver : env.verifyRes with
      | error e0 =>
        refine ⟨fun hok => rfl, fun er her => ?_⟩
        simp at her
        subst her
        rfl
      | ok u =>
        exact ⟨(runSteps_cases ε env hb).2.2.1, (runSteps_cases ε env hb).2.2.2⟩

/-- Witness: the partition-failing run fires the error callback exactly
once, with the Partition step, as its final event. -/
theorem install_error_callback_discipline_witness :
    countErrorCbs (install envPartFail).events = 1 ∧
    (install envPartFail).events.getLast? = some (.errorCb .Partition ()) :=
  (install_error_callback_discipline Unit envPartFail).2
    (.stepFailed .Partition ()) (by decide)

/-- C5: for every partition mounted by `Installer::mount`, a FAT filesystem
(FAT16 or FAT32; the filesystem enum has no FAT12 identifier) is mounted
with type string "vfat", and every other filesystem is mounted under its own
type name. -/
theorem mount_fs_type_vfat :
    (∀ fs : FileSystemType, fs.isFat = true → mountFsStr fs = "vfat") ∧
    (∀ fs : FileSystemType, fs.isFat = false → mountFsStr fs = fs.str) := by
  constructor <;> intro fs h <;> cases fs <;> first | rfl | exact absurd h (by decide)

/-- Witness: FAT32 mounts as "vfat" and ext4 mounts as "ext4". -/
theorem mount_fs_type_vfat_witness :
    mountFsStr .Fat32 = "vfat" ∧ mountFsStr .Ext4 = "ext4" :=
  ⟨mount_fs_type_vfat.1 .Fat32 rfl, mount_fs_type_vfat.2 .Ext4 rfl⟩

/-- C6: the initialization stage's package filter drops from the removal
manifest exactly the packages the language-support query reports installed:
when the query output is the space-delimited report of the installed
packages, the filtered list is the manifest minus the reported packages. -/
theorem fetch_packages_drops_installed (manifest installed : List (List Char))
    (h0 : installed ≠ []) (h : ∀ p ∈ installed, ' ' ∉ p) :
    fetchPackagesFilter manifest (joinSpaces installed) =
      manifest.filter (fun l => !(installed.contains l)) := by
  unfold fetchPackagesFilter
  rw [splitChar_joinSpaces installed h0 h]

/-- Witness: manifest ["language-pack-fr", "foo"] with the query reporting
"language-pack-fr" installed filters to exactly ["foo"]. -/
theorem fetch_packages_drops_installed_witness :
    fetchPackagesFilter ["language-pack-fr".data, "foo".data]
      (joinSpaces ["language-pack-fr".data]) = ["foo".data] := by
  rw [fetch_packages_drops_installed ["language-pack-fr".data, "foo".data]
    ["language-pack-fr".data] (by decide) (by decide)]
  decide

/-- C7: the partitioning stage's combined result errors exactly when either
track errors; when both fail the commit/format track's error is returned;
and a formatting failure after successful commits surfaces as the stage
error regardless of the query track. -/
theorem partition_stage_error_aggregation (ε π α : Type)
    (env : PartitionEnv ε π α) :
    (isOkE (partitionStage env) = (isOkE env.pvsRes && isOkE (trackB env))) ∧
    (∀ e1 e2, env.pvsRes = .error e1 → trackB env = .error e2 →
      partitionStage env = .error e2) ∧
    (∀ ps e, commitPhase env.commits = .ok ps → formatPhase env.fmt ps = .error e →
      partitionStage env = .error e) := by
  refine ⟨?_, ?_, ?_⟩
  · cases hB : trackB env <;> cases hA : env.pvsRes <;>
      simp [partitionStage, combineTracks, isOkE, hB, hA]
  · intro e1 e2 hA hB
    simp [partitionStage, combineTracks, hB]
  · intro ps e hc hf
    have hB : trackB env = .error e := by
      simp [trackB, hc, hf]
    simp [partitionStage, combineTracks, hB]

/-- Witness: with the query track failing with `false` and the commit track
failing with `true`, the stage returns the commit track's error `true`; and
a per-partition format failure surfaces while the query track succeeds. -/
theorem partition_stage_error_aggregation_witness :
    partitionStage penvBothFail = .error true ∧
    partitionStage penvFmtFail = .error true :=
  ⟨(partition_stage_error_aggregation Bool Unit Unit penvBothFail).2.1 false true
      (by decide) (by decide),
    (partition_stage_error_aggregation Bool Unit Unit penvFmtFail).2.2 [()] true
      (by decide) (by decide)⟩

/-- C8: a retention request (`config.old_root` set) whose resolved home
partition is marked for reformatting makes `install` fail with the
reformatting-home validation error before any step action runs and before
any callback fires: no disk-mutating stage is ever invoked. -/
theorem backup_reformat_home_refused (ε : Type) (env : InstallEnv ε)
    (u : List Char) (cur : List Part) (oldp newp : Part)
    (h1 : env.oldRoot = some u) (h2 : env.probeRes = .ok cur)
    (h3 : getPartitionByUuid cur u = some oldp)
    (h4 : getPartitionWithTarget env.disks "/".data = some newp)
    (h5 : (match getPartitionWithTarget env.disks "/home".data with
            | some p => p
            | none => oldp).willFormat = true) :
    install env = ⟨.error (.pre .reformattingHome), [], []⟩ := by
  have hbc : backupCheck env = .error .reformattingHome := by
    unfold backupCheck
    simp only [h1, h2, h3, h4, h5]
    simp
  unfold install
  rw [hbc]

/-- Witness: the concrete retention environment with a reformat-flagged
"/home" partition fails with the reformatting-home error and an empty
trace. -/
theorem backup_reformat_home_refused_witness :
    install envRetention = ⟨.error (.pre .reformattingHome), [], []⟩ :=
  backup_reformat_home_refused Unit envRetention "olduuid".data [partOld]
    partOld partRoot (by decide) (by decide) (by decide) (by decide) (by decide)

/-- C9: applying the recovery-configuration update twice with the same root
UUID and no LUKS UUID produces identical recovery-file content: the first
application yields content that the second application reproduces
verbatim. -/
theorem recovery_update_idempotent (doc : EnvDoc) (rootUuid : List Char)
    (hw : wfDoc doc) (hr : '\n' ∉ rootUuid)
    (hget : ∃ v, envGet doc "ROOT_UUID".data = some v) :
    ∃ c, updateRecoveryFile rootUuid none (serializeDoc doc) = .ok c ∧
      updateRecoveryFile rootUuid none c = .ok c := by
  obtain ⟨v, hv⟩ := hget
  have hLR : "LUKS_UUID".data ≠ "ROOT_UUID".data := by decide
  have hOR : "OEM_MODE".data ≠ "ROOT_UUID".data := by decide
  have hOL : "OEM_MODE".data ≠ "LUKS_UUID".data := by decide
  have hRL : "ROOT_UUID".data ≠ "LUKS_UUID".data := by decide
  have hRO : "ROOT_UUID".data ≠ "OEM_MODE".data := by decide
  have hget2 : envGet (envUpdate (envUpdate doc "LUKS_UUID".data
      (luksValue rootUuid none)) "OEM_MODE".data "0".data) "ROOT_UUID".data
      = some v := by
    rw [envGet_update_other _ _ _ _ hOR, envGet_update_other _ _ _ _ hLR, hv]
  have hrun1 : updateRecoveryDoc rootUuid none doc =
      .ok (envUpdate (envUpdate (envUpdate doc "LUKS_UUID".data
        (luksValue rootUuid none)) "OEM_MODE".data "0".data)
        "ROOT_UUID".data rootUuid) := by
    unfold updateRecoveryDoc
    simp only [hget2]
  set d3 := envUpdate (envUpdate (envUpdate doc "LUKS_UUID".data
    (luksValue rootUuid none)) "OEM_MODE".data "0".data)
    "ROOT_UUID".data rootUuid with hd3
  have hwa : wfDoc (envUpdate doc "LUKS_UUID".data (luksValue rootUuid none)) :=
    wfDoc_update doc "LUKS_UUID".data (luksValue rootUuid none) hw
      (by decide) (by decide) (by decide) (by simp [luksValue])
  have hwb : wfDoc (envUpdate (envUpdate doc "LUKS_UUID".data
      (luksValue rootUuid none)) "OEM_MODE".data "0".data) :=
    wfDoc_update _ "OEM_MODE".data "0".data hwa
      (by decide) (by decide) (by decide) (by decide)
  have hw3 : wfDoc d3 := by
    rw [hd3]
    exact wfDoc_update _ "ROOT_UUID".data rootUuid hwb
      (by decide) (by decide) (by decide) hr
  have hgL : envGet d3 "LUKS_UUID".data = some (luksValue rootUuid none) := by
    rw [hd3, envGet_update_other _ _ _ _ hRL, envGet_update_other _ _ _ _ hOL,
      envGet_update_same]
  have hgO : envGet d3 "OEM_MODE".data = some "0".data := by
    rw [hd3, envGet_update_other _ _ _ _ hRO, envGet_update_same]
  have hgR : envGet d3 "ROOT_UUID".data = some rootUuid := by
    rw [hd3, envGet_update_same]
  have e1 : envUpdate d3 "LUKS_UUID".data (luksValue rootUuid none) = d3 :=
    envUpdate_of_get _ _ _ hgL
  have e2 : envUpdate d3 "OEM_MODE".data "0".data = d3 :=
    envUpdate_of_get _ _ _ hgO
  have e3 : envUpdate d3 "ROOT_UUID".data rootUuid = d3 :=
    envUpdate_of_get _ _ _ hgR
  have hrun2 : updateRecoveryDoc rootUuid none d3 = .ok d3 := by
    unfold updateRecoveryDoc
    simp only [e1, e2, hgR, e3]
  refine ⟨serializeDoc d3, ?_, ?_⟩
  · unfold updateRecoveryFile
    rw [parse_serialize doc hw, hrun1]
  · unfold updateRecoveryFile
    rw [parse_serialize d3 hw3, hrun2]

/-- Witness: on the concrete recovery document the update applied twice
with root UUID "new" and no LUKS UUID yields identical content. -/
theorem recovery_update_idempotent_witness :
    ∃ c, updateRecoveryFile "new".data none (serializeDoc docRecovery) = .ok c ∧
      updateRecoveryFile "new".data none c = .ok c :=
  recovery_update_idempotent docRecovery "new".data
    (by unfold wfDoc; decide) (by decide) ⟨"old".data, by decide⟩

/-- C4: `Installer::mount` orders destinations by lexicographic path order:
the concrete targets "/", "/boot/efi", "/home" under chroot "/tmp/x" mount
in exactly the order "/tmp/x/", "/tmp/x/boot/efi", "/tmp/x/home"; the mount
order is always sorted; an ancestor destination is strictly below any of its
descendants, hence never mounted after one; and the computed destination
always retains the chroot as its leading bytes even for targets beginning
with "/". -/
theorem mount_order_ancestors_first :
    (mountOrder "/tmp/x".data ["/".data, "/boot/efi".data, "/home".data] =
      ["/tmp/x/".data, "/tmp/x/boot/efi".data, "/tmp/x/home".data]) ∧
    (∀ c ts, (mountOrder c ts).Pairwise (fun a b => pathLe a b = true)) ∧
    (∀ a b, isAncestor a b →
      compsLt (comps a) (comps b) = true ∧ pathLe b a = false) ∧
    (∀ c ts a b l1 l2, isAncestor a b → mountOrder c ts = l1 ++ b :: l2 →
      a ∉ b :: l2) ∧
    (∀ chroot target : List Char, chroot ≠ [] →
      ∃ rest, mountDest chroot target = chroot ++ rest) := by
  refine ⟨by decide, ?_, ?_, ?_, ?_⟩
  · intro c ts
    exact pairwise_sortLe pathLe pathLe_total pathLe_trans _
  · rintro a b ⟨c0, cs, hpre⟩
    have hlt : compsLt (comps a) (comps b) = true := by
      rw [← hpre]
      exact lexLtB_append charListLt (comps a) c0 cs
    have hne : comps b ≠ comps a := by
      intro he
      rw [he] at hlt
      exact absurd hlt (by simp [compsLt_irrefl])
    exact ⟨hlt, by simp [pathLe, compsLt_asymm _ _ hlt, hne]⟩
  · rintro c ts a b l1 l2 ⟨c0, cs, hpre⟩ hmo
    have hpw := pairwise_sortLe pathLe pathLe_total pathLe_trans
      (ts.map (mountDest c))
    rw [show sortLe pathLe (ts.map (mountDest c)) = mountOrder c ts from rfl,
      hmo] at hpw
    have hpw2 : (b :: l2).Pairwise (fun x y => pathLe x y = true) :=
      hpw.sublist (List.sublist_append_right l1 (b :: l2))
    have hlt : compsLt (comps a) (comps b) = true := by
      rw [← hpre]
      exact lexLtB_append charListLt (comps a) c0 cs
    have hne : comps b ≠ comps a := by
      intro he
      rw [he] at hlt
      exact absurd hlt (by simp [compsLt_irrefl])
    have hble : pathLe b a = false := by
      simp [pathLe, compsLt_asymm _ _ hlt, hne]
    intro hmem
    rcases List.mem_cons.mp hmem with hmem | hmem
    · rw [hmem] at hlt
      exact absurd hlt (by simp [compsLt_irrefl])
    · have hba := (List.pairwise_cons.mp hpw2).1 a hmem
      exact absurd hba (by simp [hble])
  · intro chroot target h
    unfold mountDest ensureSlash
    by_cases hc : chroot.getLast? = some '/'
    · exact ⟨stripSlash target, by rw [if_pos hc]⟩
    · exact ⟨'/' :: stripSlash target, by rw [if_neg hc]; simp⟩

/-- Witness: the root destination "/tmp/x/" is a component-wise ancestor of
"/tmp/x/home" and therefore strictly below it in the mount order. -/
theorem mount_order_ancestors_first_witness :
    compsLt (comps "/tmp/x/".data) (comps "/tmp/x/home".data) = true ∧
    pathLe "/tmp/x/home".data "/tmp/x/".data = false :=
  mount_order_ancestors_first.2.2.1 "/tmp/x/".data "/tmp/x/home".data
    ⟨"home".data, [], by decide⟩

/-- C10: the FFI partition-flag conversions are mutually inverse: every
`DISTINST_PARTITION_FLAG` round-trips through `PartitionFlag`, and every
`PartitionFlag` covered by the mapping round-trips through
`DISTINST_PARTITION_FLAG`. -/
theorem flag_conversions_inverse :
    (∀ d : DISTINST_PARTITION_FLAG, flagToFfi (flagFromFfi d) = d) ∧
    (∀ f : PartitionFlag, flagFromFfi (flagToFfi f) = f) := by
  constructor <;> intro x <;> cases x <;> rfl

end Distinst
